import Mathlib

/-!
Verification of the mimo multi-target beam-search decoder.

Shallow embedding of `src/mimo/model/preprocess.py` and
`src/mimo/model/model.py`.  Tensors are embedded as lists of rows,
token ids as naturals, log-probabilities as rationals.  The per-beam
state machine (`mimo/model/decode.py`, class `Beam`) and the special
token ids (`mimo/model/components`) are not part of the sources and are
modelled from the spec where needed.  The encoder, decoders and the
log-softmax projection are external collaborators and are embedded as
function-valued parameters (oracles).
-/

namespace Mimo

/-! ## Special tokens

Modelled from the spec: `mimo.model.components` provides the fixed
special ids BOS/EOS/PAD/UNK and the corresponding word forms; the spec
fixes the ids as BOS=0, EOS=1, PAD=2, UNK=3 (section 8 test scenario).
The word forms are opaque distinct strings. -/

def BOS : Nat := 0
def EOS : Nat := 1
def PAD : Nat := 2
def UNK : Nat := 3
def BOS_WORD : String := "<s>"
def EOS_WORD : String := "</s>"
def PAD_WORD : String := "<blank>"
def UNK_WORD : String := "<unk>"

/-! ## Preprocessing (`src/mimo/model/preprocess.py`) -/

/-- The module-level `targets` list of preprocess.py: relation name and
its `max_len`, in source order. -/
def targets : List (String × Nat) :=
  [("given name", 3), ("family name", 3), ("sex or gender", 1),
   ("date of birth", 4), ("occupation", 3), ("country of citizenship", 4),
   ("date of death", 4), ("place of birth", 5), ("educated at", 7),
   ("member of sports team", 9), ("place of death", 5), ("position held", 9),
   ("participant of", 8), ("member of political party", 6),
   ("award received", 10), ("sport", 2)]

/-- normalize_relation_name of preprocess.py; the single-character
replace of spaces by underscores is embedded as a character map. -/
def normalize_relation_name (r : String) : String :=
  "<" ++ String.mk (r.data.map (fun c => if c = ' ' then '_' else c)) ++ ">"

/-- target_config of preprocess.py, keyed by the normalized relation
name; only the `max_len` field matters to the embedded code. -/
def target_config : List (String × Nat) :=
  targets.map (fun t => (normalize_relation_name t.1, t.2))

/-- Test whether a normalized name is a configured target
(membership test `k in target_config`). -/
def isTarget (k : String) : Bool :=
  (List.lookup k target_config).isSome

/-- Lookup of `target_config[name].max_len` (total, with default 0;
the code only evaluates it at configured names). -/
def maxLenOf (k : String) : Nat :=
  (List.lookup k target_config).getD 0

/-- A raw input instance at the preprocessing boundary: `summary` is
`none` when the key is missing, `some []` when present but empty; a
mention is a (left context, span, right context) triple of tokens;
`relations` holds the items of the instance's relation dictionary. -/
structure RawInstance where
  iid : String
  summary : Option (List String)
  mentions : List (List String × List String × List String)
  relations : List (String × List String)
deriving Inhabited, DecidableEq

/-- The relation-filter loop of encode_mimo_instance: keep relations
whose normalized name is a configured target and whose value is
non-empty. -/
def qualifyingRelations (inst : RawInstance) : List (String × List String) :=
  inst.relations.filterMap (fun kv =>
    let k := normalize_relation_name kv.1
    if isTarget k ∧ kv.2 ≠ [] then some (k, kv.2) else none)

/-- encode_mimo_instance of preprocess.py.  `random.sample` of one
mention is embedded by the oracle index `pick` (reduced modulo the
mention count); everything else is deterministic.  Returns the list of
(id, encoded source, encoded targets) pairs. -/
def encode_mimo_instance (inst : RawInstance) (max_src_len : Nat) (pick : Nat) :
    List (String × List String × List (String × List String)) :=
  if inst.summary.getD [] = [] then [] else
  if inst.mentions = [] then [] else
  let relations := qualifyingRelations inst
  if relations = [] then [] else
  let chosen := inst.mentions.getD (pick % inst.mentions.length) ([], [], [])
  let sources := [chosen.1 ++ ["|"] ++ chosen.2.1 ++ ["|"] ++ chosen.2.2]
  sources.map (fun source =>
    (inst.iid,
     [BOS_WORD] ++ source.take max_src_len ++ [EOS_WORD],
     relations.map (fun nt => (nt.1, [BOS_WORD] ++ nt.2.take (maxLenOf nt.1) ++ [EOS_WORD]))))

/-! ## Beam (`mimo/model/decode.py`, not in the sources)

Modelled from the spec: the per-instance Beam state machine of
`mimo.model.decode` is imported by model.py but its file is not among
the sources; its state and operations below follow section 4.1 of the
spec.  A cumulative log-probability score is a rational or minus
infinity, embedded as `Option` with `none` standing for the minus
infinity used to initialize every slot after the first. -/

abbrev Score := Option ℚ

/-- Score addition: minus infinity absorbs (modelled from the spec's
minus-infinity score convention). -/
def Score.addProb : Score → ℚ → Score
  | none, _ => none
  | some s, p => some (s + p)

/-- Strict order on scores with minus infinity below every rational. -/
def scoreLtB : Score → Score → Bool
  | none, none => false
  | none, some _ => true
  | some _, none => false
  | some x, some y => decide (x < y)

/-- Candidate order used for top-k selection and score sorting:
higher score first, ties broken by the lower index (spec: ties break
by lower flattened index / ascending slot index). -/
def candBefore (a b : Nat × Score) : Bool :=
  scoreLtB b.2 a.2 || (decide (a.2 = b.2) && decide (a.1 ≤ b.1))

/-- Stable insertion into a sorted list: x goes before the first
element it should precede or tie with. -/
def insertBy (le : α → α → Bool) (x : α) : List α → List α
  | [] => [x]
  | y :: ys => if le x y then x :: y :: ys else y :: insertBy le x ys

/-- Stable insertion sort by a boolean order. -/
def sortBy (le : α → α → Bool) : List α → List α
  | [] => []
  | x :: xs => insertBy le x (sortBy le xs)

/-- Beam state, modelled from the spec: per-slot cumulative scores,
per-step backpointers (prevKs) and chosen tokens (nextYs, whose head
holds the initial tokens), and the done flag. -/
structure Beam where
  size : Nat
  scores : List Score
  prevKs : List (List Nat)
  nextYs : List (List Nat)
  done : Bool
deriving Inhabited, DecidableEq

/-- Beam construction, modelled from the spec: width parallel
sequences each starting with the init token (BOS unless the caller
supplies one); slot 0 starts at score 0 and every other slot at minus
infinity. -/
def Beam.start (width : Nat) (initTok : Nat) : Beam :=
  { size := width
    scores := some 0 :: List.replicate (width - 1) none
    prevKs := []
    nextYs := [List.replicate width initTok]
    done := false }

/-- Backpointer walk, modelled from the spec: the input pairs one
step's backpointer list with that step's chosen-token list, newest step
first; tokens are accumulated oldest-first. -/
def backWalk : List (List Nat × List Nat) → Nat → List Nat → List Nat
  | [], _, acc => acc
  | py :: rest, k, acc => backWalk rest (py.1.getD k 0) (py.2.getD k 0 :: acc)

/-- get_hypothesis, modelled from the spec: walk the backpointers from
the final step to step 0 and return the tokens oldest-first, excluding
the initial BOS placeholder. -/
def Beam.get_hypothesis (b : Beam) (k : Nat) : List Nat :=
  backWalk ((b.prevKs.zip b.nextYs.tail).reverse) k []

/-- get_current_state, modelled from the spec: the current token
sequence of every slot (the shared initial token followed by the
slot's chosen tokens). -/
def Beam.get_current_state (b : Beam) : List (List Nat) :=
  (List.range b.size).map (fun k => (b.nextYs.headD []).getD 0 0 :: b.get_hypothesis k)

/-- advance, modelled from the spec: add each slot's cumulative score
to its row of next-token log-probabilities, flatten, select the top
width candidates (ties to the lower flattened index), decompose flat
indices into (originating slot, token), record backpointers and
tokens, update scores, and mark done when the top candidate's token is
EOS.  Returns the updated beam and the boolean of the contract: true
means still active, false means this beam just completed. -/
def Beam.advance (b : Beam) (wordLk : List (List ℚ)) : Beam × Bool :=
  let numWords := (wordLk.headD []).length
  let beamLk := (b.scores.zip wordLk).map (fun sr => sr.2.map (fun p => Score.addProb sr.1 p))
  let best := (sortBy candBefore beamLk.flatten.enum).take b.size
  let bestIds := best.map (fun c => c.1)
  let prevK := bestIds.map (fun i => i / numWords)
  let nextY := bestIds.map (fun i => i % numWords)
  let isDone := b.done || (nextY.getD 0 0 == EOS)
  ({ b with
      scores := best.map (fun c => c.2)
      prevKs := b.prevKs ++ [prevK]
      nextYs := b.nextYs ++ [nextY]
      done := isDone },
   !isDone)

/-- sort_scores, modelled from the spec: all slot scores with their
slot indices, sorted descending by score, ties by ascending slot
index. -/
def Beam.sort_scores (b : Beam) : List Score × List Nat :=
  let sorted := sortBy candBefore b.scores.enum
  (sorted.map (fun c => c.2), sorted.map (fun c => c.1))

/-! ## Decoding driver (`src/mimo/model/model.py`) -/

/-- One per-target decoder collaborator: its configured maximum output
length and the composite forward pass.  `run` embeds the chain
decoder forward -> last time step -> tgt_word_proj -> prob_projection
of translate_batch, taking (dec partial seq rows, dec partial pos rows,
working src rows, working encoder rows) to one log-probability row per
(active instance x beam) row. -/
structure Decoder where
  n_max_seq : Nat
  run : List (List Nat) → List (List Nat) → List (List Nat) →
    List (List (List ℚ)) → List (List ℚ)

/-- The model collaborator: the shared encoder and the named
per-target decoders (the decoders dictionary of model.py). -/
structure Model where
  encoder : List (List Nat) → List (List Nat) → List (List (List ℚ))
  decoders : List (String × Decoder)

/-- GenerationModel of model.py: the model plus beam width and n_best. -/
structure GenerationModel where
  model : Model
  beam_size : Nat
  n_best : Nat

/-- The beam replication of translate_batch: embeds
`x.data.repeat(1, beam_size).view(B * beam_size, ...)` on a tensor of
equal-length rows, which turns each row into beam_size identical
consecutive rows. -/
def repeat_for_beam (rows : List α) (beam_size : Nat) : List α :=
  rows.flatMap (fun r => List.replicate beam_size r)

/-- update_active_seq and update_active_enc_info of model.py share
this shape: view the working tensor as n_remaining_sents row groups
(group size derived from the tensor's leading dimension as in the
closures' `view(n_remaining_sents, -1, ...)`), index_select the active
instances, and view back. -/
def select_active_groups (rows : List α) (active_inst_idxs : List Nat)
    (n_remaining_sents : Nat) : List α :=
  let group := rows.length / n_remaining_sents
  (active_inst_idxs.map (fun i => (rows.drop (i * group)).take group)).flatten

/-- update_active_seq of model.py (working source-sequence tensor). -/
def update_active_seq (seq : List (List Nat)) (active_inst_idxs : List Nat)
    (n_remaining_sents : Nat) : List (List Nat) :=
  select_active_groups seq active_inst_idxs n_remaining_sents

/-- update_active_enc_info of model.py (working encoder-output
tensor; rows are seq_len x d_model matrices). -/
def update_active_enc_info (enc : List (List (List ℚ))) (active_inst_idxs : List Nat)
    (n_remaining_sents : Nat) : List (List (List ℚ)) :=
  select_active_groups enc active_inst_idxs n_remaining_sents

/-- The per-step loop state of translate_batch: the beams, the
beam_inst_idx_map association list, the working source and encoder
tensors, and n_remaining_sents. -/
structure DecState where
  beams : List Beam
  beamInstIdxMap : List (Nat × Nat)
  srcSeq : List (List Nat)
  encOutput : List (List (List ℚ))
  nRemaining : Nat
deriving Inhabited

/-- The word_lk slice handed to one beam's advance call:
`word_lk.data[inst_idx]` after the `out.view(n_remaining, beam_size, -1)`
of model.py, i.e. the beam_size decoder-output rows of the instance the
beam is mapped to. -/
def advanceSlice (beam_size : Nat) (instMap : List (Nat × Nat))
    (wordRows : List (List ℚ)) (idx : Nat) : List (List ℚ) :=
  (wordRows.drop (((List.lookup idx instMap).getD 0) * beam_size)).take beam_size

/-- The advance loop of translate_batch over the given beam indices:
skip done beams, advance the rest on their slice of the decoder
output, and append to active_beam_idx_list the beams whose advance
returned false (the `if not ... advance` of model.py line 135). -/
def advanceLoop (beam_size : Nat) (instMap : List (Nat × Nat)) (wordRows : List (List ℚ)) :
    List Nat → List Beam × List Nat → List Beam × List Nat
  | [], acc => acc
  | idx :: rest, acc =>
    let b := acc.1.getD idx default
    if b.done then advanceLoop beam_size instMap wordRows rest acc
    else
      let r := b.advance (advanceSlice beam_size instMap wordRows idx)
      advanceLoop beam_size instMap wordRows rest
        (acc.1.set idx r.1, if r.2 then acc.2 else acc.2 ++ [idx])

/-- The advance loop of translate_batch over all batch positions
(`for beam_idx in range(batch_size)`), returning the updated beams and
active_beam_idx_list. -/
def advanceAll (batch_size beam_size : Nat) (instMap : List (Nat × Nat))
    (wordRows : List (List ℚ)) (beams : List Beam) : List Beam × List Nat :=
  advanceLoop beam_size instMap wordRows (List.range batch_size) (beams, [])

/-- The compaction tail of one loop iteration of translate_batch:
map each surviving beam index to its instance position, compact the
working tensors with update_active_seq / update_active_enc_info,
rebuild beam_inst_idx_map from the enumeration of
active_beam_idx_list, and update n_remaining_sents. -/
def compactState (st : DecState) (newBeams : List Beam) (activeList : List Nat) : DecState :=
  let active_inst_idxs := activeList.map (fun bi => (List.lookup bi st.beamInstIdxMap).getD 0)
  { beams := newBeams
    beamInstIdxMap := activeList.enum.map (fun p => (p.2, p.1))
    srcSeq := update_active_seq st.srcSeq active_inst_idxs st.nRemaining
    encOutput := update_active_enc_info st.encOutput active_inst_idxs st.nRemaining
    nRemaining := active_inst_idxs.length }

/-- The branch on active_beam_idx_list at the end of one loop
iteration: break when it is empty, otherwise compact.  The boolean is
true when the loop breaks. -/
def decodeStepAfter (st : DecState) (ba : List Beam × List Nat) : DecState × Bool :=
  if ba.2.isEmpty then ({ st with beams := ba.1 }, true)
  else (compactState st ba.1 ba.2, false)

/-- One iteration of the decode loop of translate_batch: build the
decoder inputs from the not-done beams, run the decoder collaborator,
advance every scheduled beam on its slice, and either report the break
(no active beams) or compact the working tensors. -/
def decodeStep (dec : Decoder) (batch_size beam_size len_dec_seq : Nat)
    (st : DecState) : DecState × Bool :=
  let decPartSeq := (st.beams.filter (fun b => !b.done)).flatMap Beam.get_current_state
  let decPartPos := List.replicate (st.nRemaining * beam_size) (List.range' 1 len_dec_seq)
  let out := dec.run decPartSeq decPartPos st.srcSeq st.encOutput
  decodeStepAfter st (advanceAll batch_size beam_size st.beamInstIdxMap out st.beams)

/-- The decode loop of translate_batch
(`for i in range(decoder.n_max_seq)` with the early break): runs at
most `fuel` iterations starting at step index `stepIdx` (so
len_dec_seq is stepIdx + 1), stops right after a step whose
active_beam_idx_list is empty, and returns the final state together
with the number of iterations executed. -/
def decodeLoop (dec : Decoder) (batch_size beam_size : Nat) :
    Nat → Nat → DecState → DecState × Nat
  | 0, _, st => (st, 0)
  | fuel + 1, stepIdx, st =>
    let sb := decodeStep dec batch_size beam_size (stepIdx + 1) st
    if sb.2 then (sb.1, 1)
    else
      let rest := decodeLoop dec batch_size beam_size fuel (stepIdx + 1) sb.1
      (rest.1, rest.2 + 1)

/-- The initial loop state of translate_batch for one target: encode
the source once, replicate the source and encoder tensors beam_size
times, build one Beam per instance primed with its init token, the
identity beam_inst_idx_map, and n_remaining_sents = batch_size. -/
def initState (gm : GenerationModel) (srcSeq srcPos : List (List Nat))
    (inits : List Nat) (batch_size : Nat) : DecState :=
  let enc_output := gm.model.encoder srcSeq srcPos
  { beams := (List.range batch_size).map (fun i => Beam.start gm.beam_size (inits.getD i 0))
    beamInstIdxMap := (List.range batch_size).map (fun i => (i, i))
    srcSeq := repeat_for_beam srcSeq gm.beam_size
    encOutput := repeat_for_beam enc_output gm.beam_size
    nRemaining := batch_size }

/-- The per-target body of translate_batch: run the decode loop to the
decoder's maximum sequence length, then for every original instance
sort the final beam's scores, keep the top n_best scores and rebuild
the n_best hypotheses through get_hypothesis.  Returns
(all_hyp, all_scores). -/
def translate_one (gm : GenerationModel) (dec : Decoder)
    (srcSeq srcPos : List (List Nat)) (inits : List Nat) (batch_size : Nat) :
    List (List (List Nat)) × List (List Score) :=
  let stF := (decodeLoop dec batch_size gm.beam_size dec.n_max_seq 0
    (initState gm srcSeq srcPos inits batch_size)).1
  let per := (List.range batch_size).map (fun b =>
    let beam := stF.beams.getD b default
    let st := beam.sort_scores
    (((st.2.take gm.n_best).map (fun i => beam.get_hypothesis i)), st.1.take gm.n_best))
  (per.map (fun p => p.1), per.map (fun p => p.2))

/-- translate_batch of model.py: batch_size is the leading dimension
of the source tensor; when batch_inits is None it is derived from the
first token of every source row, otherwise the assert
`len(batch_inits) == batch_size` fires inside the first per-decoder
iteration (so a model with no decoders never reaches it); each
configured decoder then produces its (all_hyp, all_scores) pair keyed
by the target name. -/
def translate_batch (gm : GenerationModel)
    (src_batch : List (List Nat) × List (List Nat))
    (batch_inits : Option (List Nat)) :
    Except String (List (String × (List (List (List Nat)) × List (List Score)))) :=
  let srcSeq := src_batch.1
  let srcPos := src_batch.2
  let batch_size := srcSeq.length
  if gm.model.decoders.isEmpty then .ok [] else
  match batch_inits with
  | none =>
    let inits := srcSeq.map (fun r => r.getD 0 0)
    .ok (gm.model.decoders.map (fun kd =>
      (kd.1, translate_one gm kd.2 srcSeq srcPos inits batch_size)))
  | some inits =>
    if inits.length = batch_size then
      .ok (gm.model.decoders.map (fun kd =>
        (kd.1, translate_one gm kd.2 srcSeq srcPos inits batch_size)))
    else .error "assertion failed: len(batch_inits) == batch_size"

/-! ## Shared helper lemmas -/

theorem getD_set_ne (l : List α) (i j : Nat) (x d : α) (h : i ≠ j) :
    (l.set i x).getD j d = l.getD j d := by
  simp [List.getD, List.getElem?_set_ne h]

theorem getD_map_range (f : Nat → α) (n b : Nat) (d : α) (h : b < n) :
    ((List.range n).map f).getD b d = f b := by
  simp [List.getD_eq_getElem?_getD, List.getElem?_map, List.getElem?_range, h]

theorem lookup_mem {l : List (Nat × Nat)} {k v : Nat} (h : List.lookup k l = some v) :
    (k, v) ∈ l := by
  induction l with
  | nil => simp [List.lookup] at h
  | cons p rest ih =>
    rw [List.lookup] at h
    by_cases hk : k == p.1
    · simp only [hk, if_pos] at h
      simp only [Option.some.injEq] at h
      have hk1 : k = p.1 := by simpa using hk
      have hp : (k, v) = p := by
        rcases p with ⟨p1, p2⟩
        simp_all
      rw [hp]
      exact List.mem_cons_self p rest
    · simp only [hk] at h
      right
      exact ih h

theorem mem_enum_fst_lt {l : List α} {x : Nat × α} (h : x ∈ l.enum) : x.1 < l.length := by
  rcases x with ⟨i, a⟩
  have := List.mem_enumFrom h
  omega

/-! ## C4: malformed instances are silently skipped -/

/-- C4: for every input instance that is malformed at the
preprocessing boundary — missing or empty summary, empty mentions
list, or no relation whose normalized name is a configured target with
a non-empty value — encode_mimo_instance returns the empty list.  (In
the embedding encode_mimo_instance is a total function, so no
exception can be raised on this path.) -/
theorem c4_malformed_skipped (inst : RawInstance) (max_src_len pick : Nat)
    (h : inst.summary.getD [] = [] ∨ inst.mentions = [] ∨ qualifyingRelations inst = []) :
    encode_mimo_instance inst max_src_len pick = [] := by
  unfold encode_mimo_instance
  rcases h with h | h | h
  · simp [h]
  · by_cases hs : inst.summary.getD [] = [] <;> simp [hs, h]
  · by_cases hs : inst.summary.getD [] = [] <;> by_cases hm : inst.mentions = [] <;>
      simp [hs, hm, h]

/-- Witness for C4 at a concrete malformed instance (missing summary). -/
theorem c4_witness :
    ((RawInstance.mk "w" none [] []).summary.getD [] = [] ∨
        (RawInstance.mk "w" none [] []).mentions = [] ∨
        qualifyingRelations (RawInstance.mk "w" none [] []) = []) ∧
      encode_mimo_instance (RawInstance.mk "w" none [] []) 3 0 = [] :=
  ⟨Or.inl rfl, c4_malformed_skipped (RawInstance.mk "w" none [] []) 3 0 (Or.inl rfl)⟩

/-! ## C9: sentinels and length bounds of encoded sequences -/

/-- C9: every pair produced by encode_mimo_instance has a source
sequence that begins with BOS_WORD, ends with EOS_WORD and has length
at most max_src_len + 2, and every target sequence for relation name
begins with BOS_WORD, ends with EOS_WORD and has length at most the
configured max_len of that name plus 2. -/
theorem c9_sentinels_and_bounds (inst : RawInstance) (max_src_len pick : Nat)
    (iid : String) (src : List String) (tgts : List (String × List String))
    (h : (iid, src, tgts) ∈ encode_mimo_instance inst max_src_len pick) :
    src.head? = some BOS_WORD ∧ src.getLast? = some EOS_WORD ∧
      src.length ≤ max_src_len + 2 ∧
      ∀ nt ∈ tgts, nt.2.head? = some BOS_WORD ∧ nt.2.getLast? = some EOS_WORD ∧
        nt.2.length ≤ maxLenOf nt.1 + 2 := by
  simp only [encode_mimo_instance] at h
  split_ifs at h with h1 h2 h3
  · simp at h
  · simp at h
  · simp at h
  · simp only [List.map_cons, List.map_nil, List.mem_singleton, Prod.mk.injEq] at h
    obtain ⟨-, hsrc, htg⟩ := h
    subst hsrc
    subst htg
    refine ⟨rfl, ?_, ?_, ?_⟩
    · exact List.getLast?_concat _
    · simp only [List.length_append, List.length_cons, List.length_nil]
      have := List.length_take_le max_src_len
        ((inst.mentions.getD (pick % inst.mentions.length) ([], [], [])).1 ++ ["|"] ++
          (inst.mentions.getD (pick % inst.mentions.length) ([], [], [])).2.1 ++ ["|"] ++
          (inst.mentions.getD (pick % inst.mentions.length) ([], [], [])).2.2)
      omega
    · intro nt hnt
      rw [List.mem_map] at hnt
      obtain ⟨a, -, hfa⟩ := hnt
      subst hfa
      refine ⟨rfl, ?_, ?_⟩
      · exact List.getLast?_concat _
      · simp only [List.length_append, List.length_cons, List.length_nil]
        have := List.length_take_le (maxLenOf a.1) a.2
        omega

/-- A concrete well-formed instance used by the C9 witness. -/
def oneMention : RawInstance :=
  { iid := "i1", summary := some ["s"],
    mentions := [(["a"], ["b"], ["c"])],
    relations := [("sport", ["x", "y", "z"])] }

/-- Witness for C9 at a concrete instance and its produced pair. -/
theorem c9_witness :
    ("i1", [BOS_WORD, "a", "|", "b", "|", "c", EOS_WORD],
        [("<sport>", [BOS_WORD, "x", "y", EOS_WORD])]) ∈
          encode_mimo_instance oneMention 5 0 ∧
      ([BOS_WORD, "a", "|", "b", "|", "c", EOS_WORD].head? = some BOS_WORD ∧
        [BOS_WORD, "a", "|", "b", "|", "c", EOS_WORD].getLast? = some EOS_WORD ∧
        [BOS_WORD, "a", "|", "b", "|", "c", EOS_WORD].length ≤ 5 + 2 ∧
        ∀ nt ∈ [("<sport>", [BOS_WORD, "x", "y", EOS_WORD])],
          nt.2.head? = some BOS_WORD ∧ nt.2.getLast? = some EOS_WORD ∧
            nt.2.length ≤ maxLenOf nt.1 + 2) :=
  ⟨by decide,
    c9_sentinels_and_bounds oneMention 5 0 "i1"
      [BOS_WORD, "a", "|", "b", "|", "c", EOS_WORD]
      [("<sport>", [BOS_WORD, "x", "y", EOS_WORD])] (by decide)⟩

/-! ## C10: one pair per instance, from a sampled mention -/

/-- A concrete well-formed instance with two mentions, for the
non-determinism part of C10. -/
def twoMentions : RawInstance :=
  { iid := "i2", summary := some ["s"],
    mentions := [(["a"], ["b"], ["c"]), (["d"], ["e"], ["f"])],
    relations := [("sport", ["x"])] }

/-- C10: for every well-formed instance, encode_mimo_instance returns
exactly one (id, source, targets) pair, built from the mention the
sampling oracle selected, with the source formed as left context,
separator, span, separator, right context (then truncated and
wrapped); the number of pairs never exceeds one for any instance; and
the output genuinely depends on the sampling draw, so the chosen
mention is not a function of the input alone. -/
theorem c10_single_mention_pair :
    (∀ (inst : RawInstance) (max_src_len pick : Nat),
        inst.summary.getD [] ≠ [] → inst.mentions ≠ [] →
        qualifyingRelations inst ≠ [] → pick < inst.mentions.length →
        encode_mimo_instance inst max_src_len pick =
          [(inst.iid,
            [BOS_WORD] ++
              ((inst.mentions.getD pick ([], [], [])).1 ++ ["|"] ++
                (inst.mentions.getD pick ([], [], [])).2.1 ++ ["|"] ++
                (inst.mentions.getD pick ([], [], [])).2.2).take max_src_len ++ [EOS_WORD],
            (qualifyingRelations inst).map (fun nt =>
              (nt.1, [BOS_WORD] ++ nt.2.take (maxLenOf nt.1) ++ [EOS_WORD])))]) ∧
    (∀ (inst : RawInstance) (max_src_len pick : Nat),
        (encode_mimo_instance inst max_src_len pick).length ≤ 1) ∧
    encode_mimo_instance twoMentions 9 0 ≠ encode_mimo_instance twoMentions 9 1 := by
  refine ⟨?_, ?_, ?_⟩
  · intro inst max_src_len pick h1 h2 h3 h4
    simp [encode_mimo_instance, h1, h2, h3, Nat.mod_eq_of_lt h4]
  · intro inst max_src_len pick
    simp only [encode_mimo_instance]
    split_ifs <;> simp
  · decide

/-- Witness for C10 applying the single-pair characterization at a
concrete instance and draw. -/
theorem c10_witness :
    (0 < twoMentions.mentions.length) ∧
      encode_mimo_instance twoMentions 9 0 =
        [(twoMentions.iid,
          [BOS_WORD] ++
            ((twoMentions.mentions.getD 0 ([], [], [])).1 ++ ["|"] ++
              (twoMentions.mentions.getD 0 ([], [], [])).2.1 ++ ["|"] ++
              (twoMentions.mentions.getD 0 ([], [], [])).2.2).take 9 ++ [EOS_WORD],
          (qualifyingRelations twoMentions).map (fun nt =>
            (nt.1, [BOS_WORD] ++ nt.2.take (maxLenOf nt.1) ++ [EOS_WORD])))] :=
  ⟨by decide,
    c10_single_mention_pair.1 twoMentions 9 0 (by decide) (by decide) (by decide) (by decide)⟩

/-! ## C1: polarity of the advance return value in the step loop -/

/-- Characterization of active_beam_idx_list as computed by the
advance loop: over distinct beam indices, starting from beams that
agree with `beams` on every index still to process, the produced
active list appends exactly the not-done beams whose advance call
returned false. -/
theorem advanceLoop_active_spec (beam_size : Nat) (instMap : List (Nat × Nat))
    (wordRows : List (List ℚ)) (idxs : List Nat) (bs beams : List Beam) (act : List Nat)
    (hnd : idxs.Nodup)
    (hbs : ∀ j ∈ idxs, bs.getD j default = beams.getD j default) :
    (advanceLoop beam_size instMap wordRows idxs (bs, act)).2 =
      act ++ idxs.filter (fun idx =>
        !(beams.getD idx default).done &&
        !((beams.getD idx default).advance (advanceSlice beam_size instMap wordRows idx)).2) := by
  induction idxs generalizing bs act with
  | nil => simp [advanceLoop]
  | cons idx rest ih =>
    have hidx : bs.getD idx default = beams.getD idx default :=
      hbs idx (List.mem_cons_self idx rest)
    have hnotmem : idx ∉ rest := (List.nodup_cons.mp hnd).1
    have hndr : rest.Nodup := (List.nodup_cons.mp hnd).2
    rw [advanceLoop]
    simp only [hidx]
    by_cases hdone : (beams.getD idx default).done
    · rw [if_pos hdone]
      rw [ih bs act hndr (fun j hj => hbs j (List.mem_cons_of_mem idx hj))]
      have hd : (!(beams.getD idx default).done &&
          !((beams.getD idx default).advance (advanceSlice beam_size instMap wordRows idx)).2) =
            false := by
        rw [hdone]
        rfl
      rw [List.filter_cons, hd]
      simp
    · rw [if_neg hdone]
      simp only [Bool.not_eq_true] at hdone
      have hbs' : ∀ j ∈ rest,
          (bs.set idx ((beams.getD idx default).advance
            (advanceSlice beam_size instMap wordRows idx)).1).getD j default =
            beams.getD j default := by
        intro j hj
        have hne : idx ≠ j := fun hEq => hnotmem (hEq ▸ hj)
        rw [getD_set_ne _ _ _ _ _ hne]
        exact hbs j (List.mem_cons_of_mem idx hj)
      rw [ih _ _ hndr hbs']
      by_cases hret : ((beams.getD idx default).advance
          (advanceSlice beam_size instMap wordRows idx)).2
      · rw [if_pos hret]
        have hd : (!(beams.getD idx default).done &&
            !((beams.getD idx default).advance (advanceSlice beam_size instMap wordRows idx)).2) =
              false := by
          rw [hdone, hret]
          rfl
        rw [List.filter_cons, hd]
        simp
      · rw [if_neg hret]
        simp only [Bool.not_eq_true] at hret
        have hd : (!(beams.getD idx default).done &&
            !((beams.getD idx default).advance (advanceSlice beam_size instMap wordRows idx)).2) =
              true := by
          rw [hdone, hret]
          rfl
        rw [List.filter_cons, hd]
        simp

/-- C1 counterexample: a concrete not-done beam whose advance call
returns true (still active, per the contract the claim cites) is
nevertheless absent from active_beam_idx_list, hence dropped from the
active set — refuting the claimed polarity.  Batch of one instance,
beam width 1, vocabulary of two tokens whose top-scoring token is not
EOS. -/
theorem c1_counterexample :
    ((Beam.start 1 0).advance (advanceSlice 1 [(0, 0)] [[(1 : ℚ), 0]] 0)).2 = true ∧
      (advanceAll 1 1 [(0, 0)] [[(1 : ℚ), 0]] [Beam.start 1 0]).2 = [] := by
  constructor
  · norm_num [Beam.advance, Beam.start, advanceSlice, Score.addProb, sortBy, insertBy,
      candBefore, scoreLtB, List.enum, List.enumFrom, EOS, List.lookup]
  · norm_num [advanceAll, advanceLoop, Beam.advance, Beam.start, advanceSlice,
      Score.addProb, sortBy, insertBy, candBefore, scoreLtB, List.enum, List.enumFrom,
      EOS, List.lookup, List.range_succ]

/-- C1 amended: in the step loop of translate_batch, a beam is kept in
the active set exactly when it was not yet done and its advance call
returned FALSE; a beam whose advance call returned true is dropped
from the active set (the code treats a true return as "just
completed"), the opposite polarity of the claim. -/
theorem c1_active_set_polarity (batch_size beam_size : Nat) (instMap : List (Nat × Nat))
    (wordRows : List (List ℚ)) (beams : List Beam) (idx : Nat) :
    idx ∈ (advanceAll batch_size beam_size instMap wordRows beams).2 ↔
      idx < batch_size ∧ (beams.getD idx default).done = false ∧
        ((beams.getD idx default).advance
          (advanceSlice beam_size instMap wordRows idx)).2 = false := by
  unfold advanceAll
  rw [advanceLoop_active_spec beam_size instMap wordRows (List.range batch_size) beams beams []
    (List.nodup_range batch_size) (fun _ _ => rfl)]
  simp [List.mem_filter, List.mem_range]

/-! ## C2: compaction invariant -/

/-- Length of one instance block of a working tensor whose leading
dimension is R * beam rows. -/
theorem chunk_length {α : Type} (rows : List α) (R beam i : Nat)
    (hlen : rows.length = R * beam) (hi : i < R) :
    ((rows.drop (i * beam)).take beam).length = beam := by
  rw [List.length_take, List.length_drop, hlen]
  have h2 : (i + 1) * beam ≤ R * beam := Nat.mul_le_mul_right beam hi
  have h3 : (i + 1) * beam = i * beam + beam := by ring
  omega

/-- The compacted tensor has exactly (selected count) * beam rows. -/
theorem select_active_groups_length {α : Type} (rows : List α) (idxs : List Nat)
    (R beam : Nat) (hR : 0 < R) (hlen : rows.length = R * beam)
    (hidx : ∀ i ∈ idxs, i < R) :
    (select_active_groups rows idxs R).length = idxs.length * beam := by
  have hg : rows.length / R = beam := by
    rw [hlen]
    exact Nat.mul_div_cancel_left beam hR
  simp only [select_active_groups, hg]
  induction idxs with
  | nil => simp
  | cons i rest ih =>
    have hi : i < R := hidx i (List.mem_cons_self i rest)
    simp only [List.map_cons, List.flatten_cons, List.length_append, List.length_cons]
    rw [ih (fun x hx => hidx x (List.mem_cons_of_mem i hx))]
    rw [chunk_length rows R beam i hlen hi]
    ring

/-- The j-th block of the compacted tensor is the block of the j-th
selected instance of the original tensor. -/
theorem select_active_groups_blocks {α : Type} (rows : List α) (idxs : List Nat)
    (R beam : Nat) (hR : 0 < R) (hlen : rows.length = R * beam)
    (hidx : ∀ i ∈ idxs, i < R) :
    ∀ j, j < idxs.length →
      ((select_active_groups rows idxs R).drop (j * beam)).take beam =
        (rows.drop ((idxs.getD j 0) * beam)).take beam := by
  have hg : rows.length / R = beam := by
    rw [hlen]
    exact Nat.mul_div_cancel_left beam hR
  simp only [select_active_groups, hg]
  induction idxs with
  | nil =>
    intro j hj
    simp at hj
  | cons i rest ih =>
    intro j hj
    have hi : i < R := hidx i (List.mem_cons_self i rest)
    have hcl : ((rows.drop (i * beam)).take beam).length = beam :=
      chunk_length rows R beam i hlen hi
    cases j with
    | zero =>
      simp only [List.map_cons, List.flatten_cons, Nat.zero_mul, List.drop_zero,
        List.getD_cons_zero]
      exact List.take_left' hcl
    | succ j' =>
      simp only [List.map_cons, List.flatten_cons, List.getD_cons_succ]
      have hstep : (j' + 1) * beam = ((rows.drop (i * beam)).take beam).length + j' * beam := by
        rw [hcl]
        ring
      rw [hstep, List.drop_append]
      exact ih (fun x hx => hidx x (List.mem_cons_of_mem i hx)) j'
        (by simpa using Nat.lt_of_succ_lt_succ hj)

/-- The invariant maintained by the step loop of translate_batch:
the working source and encoder tensors hold exactly
n_remaining_sents * beam_size rows, beam_inst_idx_map only maps to
live instance positions, and at least one instance remains. -/
def stateInv (beam_size : Nat) (st : DecState) : Prop :=
  st.srcSeq.length = st.nRemaining * beam_size ∧
  st.encOutput.length = st.nRemaining * beam_size ∧
  (∀ p ∈ st.beamInstIdxMap, p.2 < st.nRemaining) ∧
  0 < st.nRemaining

/-- Compaction preserves the loop invariant whenever at least one beam
survives. -/
theorem compactState_inv (beam_size : Nat) (st : DecState) (newBeams : List Beam)
    (activeList : List Nat) (hinv : stateInv beam_size st) (hne : activeList ≠ []) :
    stateInv beam_size (compactState st newBeams activeList) := by
  obtain ⟨hsrc, henc, hmap, hpos⟩ := hinv
  have hb : ∀ i ∈ activeList.map (fun bi => (List.lookup bi st.beamInstIdxMap).getD 0),
      i < st.nRemaining := by
    intro i hi
    rw [List.mem_map] at hi
    obtain ⟨bi, -, hfa⟩ := hi
    cases hl : List.lookup bi st.beamInstIdxMap with
    | none => simp [hl] at hfa; omega
    | some v =>
      have hv : (bi, v) ∈ st.beamInstIdxMap := lookup_mem hl
      have := hmap (bi, v) hv
      simp [hl] at hfa
      omega
  refine ⟨?_, ?_, ?_, ?_⟩
  · simpa [compactState, update_active_seq] using
      select_active_groups_length st.srcSeq _ st.nRemaining beam_size hpos hsrc hb
  · simpa [compactState, update_active_enc_info] using
      select_active_groups_length st.encOutput _ st.nRemaining beam_size hpos henc hb
  · intro p hp
    simp only [compactState, List.mem_map] at hp
    obtain ⟨q, hq, hfq⟩ := hp
    have hq1 : q.1 < activeList.length := mem_enum_fst_lt hq
    simp only [compactState, List.length_map]
    rw [← hfq]
    simpa using hq1
  · simp only [compactState, List.length_map]
    exact List.length_pos.mpr hne

/-- A non-breaking loop iteration preserves the invariant. -/
theorem decodeStepAfter_inv (beam_size : Nat) (st : DecState) (ba : List Beam × List Nat)
    (hinv : stateInv beam_size st) (hnb : (decodeStepAfter st ba).2 = false) :
    stateInv beam_size (decodeStepAfter st ba).1 := by
  unfold decodeStepAfter at hnb ⊢
  by_cases hemp : ba.2.isEmpty
  · rw [if_pos hemp] at hnb
    simp at hnb
  · rw [if_neg hemp] at hnb ⊢
    exact compactState_inv beam_size st ba.1 ba.2 hinv (by simpa [List.isEmpty_iff] using hemp)

/-- Leading dimension after the beam replication of translate_batch. -/
theorem repeat_for_beam_length {α : Type} (rows : List α) (beam_size : Nat) :
    (repeat_for_beam rows beam_size).length = rows.length * beam_size := by
  unfold repeat_for_beam
  induction rows with
  | nil => simp
  | cons r rest ih =>
    simp only [List.flatMap_cons, List.length_append, List.length_replicate, ih,
      List.length_cons]
    ring

/-- The state entering the decode loop satisfies the invariant, given
the collaborator shape contract that the encoder returns one row per
instance. -/
theorem initState_inv (gm : GenerationModel) (srcSeq srcPos : List (List Nat))
    (inits : List Nat) (batch_size : Nat) (hb : 0 < batch_size)
    (hsrc : srcSeq.length = batch_size)
    (henc : (gm.model.encoder srcSeq srcPos).length = batch_size) :
    stateInv gm.beam_size (initState gm srcSeq srcPos inits batch_size) := by
  refine ⟨?_, ?_, ?_, ?_⟩
  · simp [initState, repeat_for_beam_length, hsrc]
  · simp [initState, repeat_for_beam_length, henc]
  · intro p hp
    simp only [initState, List.mem_map, List.mem_range] at hp
    obtain ⟨i, hi, hfi⟩ := hp
    simp only [initState]
    rw [← hfi]
    simpa using hi
  · simpa [initState] using hb

/-- C2: whenever the active instance count shrinks from R to R', the
working source-sequence tensor and encoder-output tensor are re-derived
by active-instance index selection to leading dimension exactly
R' * beam_size, with the j-th surviving block equal to the block of the
j-th still-active instance before compaction (first two conjuncts);
and this holds across the whole step loop for any sequence of
active/inactive transitions, because every non-breaking decodeStep
preserves the row-count invariant that compaction relies on, which the
initial state establishes (last two conjuncts). -/
theorem c2_compaction_invariant :
    (∀ (seq : List (List Nat)) (idxs : List Nat) (R beam_size : Nat),
        0 < R → seq.length = R * beam_size → (∀ i ∈ idxs, i < R) →
        (update_active_seq seq idxs R).length = idxs.length * beam_size ∧
          ∀ j, j < idxs.length →
            ((update_active_seq seq idxs R).drop (j * beam_size)).take beam_size =
              (seq.drop ((idxs.getD j 0) * beam_size)).take beam_size) ∧
    (∀ (enc : List (List (List ℚ))) (idxs : List Nat) (R beam_size : Nat),
        0 < R → enc.length = R * beam_size → (∀ i ∈ idxs, i < R) →
        (update_active_enc_info enc idxs R).length = idxs.length * beam_size ∧
          ∀ j, j < idxs.length →
            ((update_active_enc_info enc idxs R).drop (j * beam_size)).take beam_size =
              (enc.drop ((idxs.getD j 0) * beam_size)).take beam_size) ∧
    (∀ (dec : Decoder) (batch_size beam_size len_dec_seq : Nat) (st : DecState),
        stateInv beam_size st →
        (decodeStep dec batch_size beam_size len_dec_seq st).2 = false →
        stateInv beam_size (decodeStep dec batch_size beam_size len_dec_seq st).1) ∧
    (∀ (gm : GenerationModel) (srcSeq srcPos : List (List Nat)) (inits : List Nat)
        (batch_size : Nat),
        0 < batch_size → srcSeq.length = batch_size →
        (gm.model.encoder srcSeq srcPos).length = batch_size →
        stateInv gm.beam_size (initState gm srcSeq srcPos inits batch_size)) := by
  refine ⟨?_, ?_, ?_, ?_⟩
  · intro seq idxs R beam_size hR hlen hidx
    exact ⟨select_active_groups_length seq idxs R beam_size hR hlen hidx,
      select_active_groups_blocks seq idxs R beam_size hR hlen hidx⟩
  · intro enc idxs R beam_size hR hlen hidx
    exact ⟨select_active_groups_length enc idxs R beam_size hR hlen hidx,
      select_active_groups_blocks enc idxs R beam_size hR hlen hidx⟩
  · intro dec batch_size beam_size len_dec_seq st hinv hnb
    unfold decodeStep at hnb ⊢
    exact decodeStepAfter_inv beam_size st _ hinv hnb
  · intro gm srcSeq srcPos inits batch_size hb hsrc henc
    exact initState_inv gm srcSeq srcPos inits batch_size hb hsrc henc

/-- Witness for C2 applying the source-tensor compaction conjunct to a
concrete two-instance tensor shrinking to one instance. -/
theorem c2_witness :
    (0 < 2 ∧ ([[1], [2]] : List (List Nat)).length = 2 * 1 ∧
        (∀ i ∈ ([1] : List Nat), i < 2)) ∧
      ((update_active_seq [[1], [2]] [1] 2).length = [1].length * 1 ∧
        ∀ j, j < ([1] : List Nat).length →
          ((update_active_seq [[1], [2]] [1] 2).drop (j * 1)).take 1 =
            (([[1], [2]] : List (List Nat)).drop ((([1] : List Nat).getD j 0) * 1)).take 1) :=
  ⟨⟨by decide, by decide, by decide⟩,
    c2_compaction_invariant.1 [[1], [2]] [1] 2 1 (by decide) (by decide) (by decide)⟩

/-! ## C3: the batch_inits precondition -/

/-- A GenerationModel with no configured decoders, for the C3
counterexample. -/
def gmEmptyDec : GenerationModel :=
  { model := { encoder := fun _ _ => [], decoders := [] }, beam_size := 1, n_best := 1 }

/-- A decoder stub with maximum sequence length zero. -/
def decNop : Decoder := { n_max_seq := 0, run := fun _ _ _ _ => [] }

/-- A GenerationModel with a single decoder stub over a one-instance
batch, for concrete witnesses. -/
def gmOne : GenerationModel :=
  { model := { encoder := fun _ _ => [[[0]]], decoders := [("sport", decNop)] },
    beam_size := 1, n_best := 1 }

/-- C3 counterexample: with no configured decoders the per-decoder
loop body never runs, so a batch_inits whose length differs from the
batch size is accepted and the call returns successfully instead of
failing fast. -/
theorem c3_counterexample :
    ([1, 2] : List Nat).length ≠ ([[5]] : List (List Nat)).length ∧
      translate_batch gmEmptyDec ([[5]], [[1]]) (some [1, 2]) = .ok [] :=
  ⟨by decide, rfl⟩

/-- C3 amended: provided at least one decoder is configured, a
non-None batch_inits whose length differs from the batch size makes
translate_batch fail with the assert before any decoding step (the
error is produced for every gm with those decoders, independently of
the encoder and decoder collaborators), and a matching length produces
the normal successful result. -/
theorem c3_precondition_check (gm : GenerationModel) (srcSeq srcPos : List (List Nat))
    (l : List Nat) (hne : gm.model.decoders ≠ []) :
    (l.length ≠ srcSeq.length →
      translate_batch gm (srcSeq, srcPos) (some l) =
        .error "assertion failed: len(batch_inits) == batch_size") ∧
    (l.length = srcSeq.length →
      translate_batch gm (srcSeq, srcPos) (some l) =
        .ok (gm.model.decoders.map (fun kd =>
          (kd.1, translate_one gm kd.2 srcSeq srcPos l srcSeq.length)))) := by
  have hemp : gm.model.decoders.isEmpty = false := by
    simp [List.isEmpty_iff, hne]
  constructor
  · intro hll
    simp [translate_batch, hemp, hll]
  · intro hll
    simp [translate_batch, hemp, hll]

/-- Witness for C3 at a concrete model with one decoder and a
mismatched batch_inits. -/
theorem c3_witness :
    ([1, 2] : List Nat).length ≠ ([[5]] : List (List Nat)).length ∧
      translate_batch gmOne ([[5]], [[1]]) (some [1, 2]) =
        .error "assertion failed: len(batch_inits) == batch_size" :=
  ⟨by decide,
    (c3_precondition_check gmOne [[5]] [[1]] [1, 2] (by simp [gmOne])).1 (by decide)⟩

/-! ## C5: beam replication -/

/-- C5: after the replication step each working tensor has leading
dimension batch_size * beam_size and, for every original instance i
and every j below beam_size, row i * beam_size + j equals instance i's
original row; translate_batch applies repeat_for_beam to both the
source-sequence tensor and the encoder-output tensor in initState. -/
theorem c5_replication {α : Type} (rows : List α) (beam_size i j : Nat) (d : α)
    (hi : i < rows.length) (hj : j < beam_size) :
    (repeat_for_beam rows beam_size).length = rows.length * beam_size ∧
      (repeat_for_beam rows beam_size).getD (i * beam_size + j) d = rows.getD i d := by
  refine ⟨repeat_for_beam_length rows beam_size, ?_⟩
  induction rows generalizing i with
  | nil => simp at hi
  | cons r rest ih =>
    unfold repeat_for_beam
    rw [List.flatMap_cons]
    cases i with
    | zero =>
      simp only [Nat.zero_mul, Nat.zero_add, List.getD_cons_zero]
      rw [List.getD_append _ _ _ _ (by simpa using hj)]
      simp [List.getD_eq_getElem?_getD, List.getElem?_replicate, hj]
    | succ i' =>
      have hi' : i' < rest.length := by simpa using Nat.lt_of_succ_lt_succ hi
      have hidx : (i' + 1) * beam_size + j =
          (List.replicate beam_size r).length + (i' * beam_size + j) := by
        simp only [List.length_replicate]
        ring
      rw [hidx, List.getD_append_right _ _ _ _ (Nat.le_add_right _ _),
        Nat.add_sub_cancel_left, List.getD_cons_succ]
      exact ih i' hi'

/-- Witness for C5 on a concrete two-row tensor replicated twice. -/
theorem c5_witness :
    (1 < ([[10], [20]] : List (List Nat)).length ∧ 0 < 2) ∧
      ((repeat_for_beam ([[10], [20]] : List (List Nat)) 2).length =
          ([[10], [20]] : List (List Nat)).length * 2 ∧
        (repeat_for_beam ([[10], [20]] : List (List Nat)) 2).getD (1 * 2 + 0) [] =
          ([[10], [20]] : List (List Nat)).getD 1 []) :=
  ⟨⟨by decide, by decide⟩, c5_replication [[10], [20]] 2 1 0 [] (by decide) (by decide)⟩

/-! ## C6: step cap and early termination -/

/-- C6: the decode loop executes at most its fuel many steps — and
translate_batch runs it with fuel n_max_seq — (first conjunct); it
stops immediately, with exactly one further executed step, after the
first step whose active set is empty (second conjunct); and
termination is a success path: translate_batch returns ok, never an
error, on every run without the batch_inits assert (third conjunct). -/
theorem c6_step_cap_and_early_stop :
    (∀ (dec : Decoder) (batch_size beam_size fuel stepIdx : Nat) (st : DecState),
        (decodeLoop dec batch_size beam_size fuel stepIdx st).2 ≤ fuel) ∧
    (∀ (dec : Decoder) (batch_size beam_size fuel stepIdx : Nat) (st : DecState),
        (decodeStep dec batch_size beam_size (stepIdx + 1) st).2 = true →
        decodeLoop dec batch_size beam_size (fuel + 1) stepIdx st =
          ((decodeStep dec batch_size beam_size (stepIdx + 1) st).1, 1)) ∧
    (∀ (gm : GenerationModel) (srcSeq srcPos : List (List Nat)),
        ∃ res, translate_batch gm (srcSeq, srcPos) none = .ok res) := by
  refine ⟨?_, ?_, ?_⟩
  · intro dec batch_size beam_size fuel stepIdx st
    induction fuel generalizing stepIdx st with
    | zero => simp [decodeLoop]
    | succ n ih =>
      rw [decodeLoop]
      by_cases h : (decodeStep dec batch_size beam_size (stepIdx + 1) st).2
      · simp only [h, if_true]
        omega
      · simp only [h, if_false, Bool.false_eq_true]
        have := ih (stepIdx + 1) (decodeStep dec batch_size beam_size (stepIdx + 1) st).1
        omega
  · intro dec batch_size beam_size fuel stepIdx st h
    rw [decodeLoop]
    simp only [h, if_true]
  · intro gm srcSeq srcPos
    simp only [translate_batch]
    by_cases hemp : gm.model.decoders.isEmpty
    · rw [if_pos hemp]
      exact ⟨[], rfl⟩
    · rw [if_neg hemp]
      exact ⟨_, rfl⟩

/-- The empty loop state over an empty batch, for the C6 witness. -/
def stEmpty : DecState :=
  { beams := [], beamInstIdxMap := [], srcSeq := [], encOutput := [], nRemaining := 0 }

/-- Witness for C6: on an empty batch the first step reports an empty
active set and the loop stops after exactly that one step. -/
theorem c6_witness :
    (decodeStep decNop 0 1 1 stEmpty).2 = true ∧
      decodeLoop decNop 0 1 3 0 stEmpty = ((decodeStep decNop 0 1 1 stEmpty).1, 1) :=
  ⟨by decide, c6_step_cap_and_early_stop.2.1 decNop 0 1 2 0 stEmpty (by decide)⟩

/-! ## C7: final extraction of scores and hypotheses -/

/-- C7: after the decode loop ends, translate_batch returns for every
original instance exactly the top n_best scores of that instance's
sort_scores on its final beam state, and the n_best hypotheses rebuilt
by get_hypothesis at the corresponding slot indices.  The statement
carries no assumption on the final beams' done flags, so instances
whose beams were still undone at the cap contribute their best partial
hypotheses the same way, and the extraction is total (no error). -/
theorem c7_extraction (gm : GenerationModel) (dec : Decoder)
    (srcSeq srcPos : List (List Nat)) (inits : List Nat) (batch_size b : Nat)
    (hb : b < batch_size) :
    (translate_one gm dec srcSeq srcPos inits batch_size).2.getD b [] =
      (((decodeLoop dec batch_size gm.beam_size dec.n_max_seq 0
        (initState gm srcSeq srcPos inits batch_size)).1.beams.getD b
          default).sort_scores).1.take gm.n_best ∧
    (translate_one gm dec srcSeq srcPos inits batch_size).1.getD b [] =
      ((((decodeLoop dec batch_size gm.beam_size dec.n_max_seq 0
        (initState gm srcSeq srcPos inits batch_size)).1.beams.getD b
          default).sort_scores).2.take gm.n_best).map
        (fun i => ((decodeLoop dec batch_size gm.beam_size dec.n_max_seq 0
          (initState gm srcSeq srcPos inits batch_size)).1.beams.getD b
            default).get_hypothesis i) := by
  simp only [translate_one]
  constructor
  · rw [List.map_map, getD_map_range _ _ _ _ hb]
    rfl
  · rw [List.map_map, getD_map_range _ _ _ _ hb]
    rfl

/-- Witness for C7 at a concrete one-instance model whose decoder has
maximum length zero. -/
theorem c7_witness :
    (0 < 1) ∧
      ((translate_one gmOne decNop [[0]] [[1]] [0] 1).2.getD 0 [] =
          (((decodeLoop decNop 1 gmOne.beam_size decNop.n_max_seq 0
            (initState gmOne [[0]] [[1]] [0] 1)).1.beams.getD 0
              default).sort_scores).1.take gmOne.n_best ∧
        (translate_one gmOne decNop [[0]] [[1]] [0] 1).1.getD 0 [] =
          ((((decodeLoop decNop 1 gmOne.beam_size decNop.n_max_seq 0
            (initState gmOne [[0]] [[1]] [0] 1)).1.beams.getD 0
              default).sort_scores).2.take gmOne.n_best).map
            (fun i => ((decodeLoop decNop 1 gmOne.beam_size decNop.n_max_seq 0
              (initState gmOne [[0]] [[1]] [0] 1)).1.beams.getD 0
                default).get_hypothesis i)) :=
  ⟨by decide, c7_extraction gmOne decNop [[0]] [[1]] [0] 1 0 (by decide)⟩

/-! ## C8: determinism -/

/-- Two decoders with the same configured length and pointwise-equal
forward passes are equal. -/
theorem decoder_ext (d1 d2 : Decoder) (h1 : d1.n_max_seq = d2.n_max_seq)
    (h2 : ∀ w x y z, d1.run w x y z = d2.run w x y z) : d1 = d2 := by
  cases d1
  cases d2
  simp only [Decoder.mk.injEq]
  exact ⟨h1, funext fun w => funext fun x => funext fun y => funext fun z => h2 w x y z⟩

/-- Two named decoder tables related pointwise are equal. -/
theorem decoders_eq (l1 l2 : List (String × Decoder))
    (h : List.Forall₂ (fun a b => a.1 = b.1 ∧ a.2.n_max_seq = b.2.n_max_seq ∧
      ∀ w x y z, a.2.run w x y z = b.2.run w x y z) l1 l2) : l1 = l2 := by
  induction h with
  | nil => rfl
  | cons hab hrest ih =>
    obtain ⟨h1, h2, h3⟩ := hab
    congr 1
    exact Prod.ext h1 (decoder_ext _ _ h2 h3)

/-- Models with pointwise-equal collaborators are equal. -/
theorem model_ext (m1 m2 : Model) (he : m1.encoder = m2.encoder)
    (hd : m1.decoders = m2.decoders) : m1 = m2 := by
  cases m1
  cases m2
  simp_all

/-- GenerationModels with equal components are equal. -/
theorem generation_model_ext (g1 g2 : GenerationModel) (hm : g1.model = g2.model)
    (hb : g1.beam_size = g2.beam_size) (hn : g1.n_best = g2.n_best) : g1 = g2 := by
  cases g1
  cases g2
  simp_all

/-- C8: translate_batch is deterministic — two runs whose encoder,
decoders and projection collaborators produce identical outputs on all
inputs, with the same beam width and n_best, return identical
hypotheses and scores; no randomness enters anywhere, including the
tie-breaking of candidate selection, which is the fixed
lower-flat-index rule of candBefore inside Beam.advance. -/
theorem c8_determinism (gm1 gm2 : GenerationModel)
    (henc : ∀ s p, gm1.model.encoder s p = gm2.model.encoder s p)
    (hdec : List.Forall₂ (fun a b => a.1 = b.1 ∧ a.2.n_max_seq = b.2.n_max_seq ∧
      ∀ w x y z, a.2.run w x y z = b.2.run w x y z) gm1.model.decoders gm2.model.decoders)
    (hbeam : gm1.beam_size = gm2.beam_size) (hn : gm1.n_best = gm2.n_best)
    (src_batch : List (List Nat) × List (List Nat)) (batch_inits : Option (List Nat)) :
    translate_batch gm1 src_batch batch_inits = translate_batch gm2 src_batch batch_inits := by
  have hgm : gm1 = gm2 :=
    generation_model_ext gm1 gm2
      (model_ext gm1.model gm2.model
        (funext fun s => funext fun p => henc s p)
        (decoders_eq gm1.model.decoders gm2.model.decoders hdec))
      hbeam hn
  rw [hgm]

/-- Witness for C8 at a concrete model compared with itself. -/
theorem c8_witness :
    translate_batch gmOne ([[0]], [[1]]) none = translate_batch gmOne ([[0]], [[1]]) none :=
  c8_determinism gmOne gmOne (fun _ _ => rfl)
    (List.Forall₂.cons ⟨rfl, rfl, fun _ _ _ _ => rfl⟩ List.Forall₂.nil)
    rfl rfl ([[0]], [[1]]) none

end Mimo
